import Mathlib

/-!
Verification of core value/arithmetic/string/GC-accounting operations of the
Lua 5.5.0 runtime (files `lobject.c/h`, `lvm.h`, `lapi.c`, `lstate.c`,
`lstring.h`, `luaconf.h`, `llimits.h`, `lctype.h`).

`lua_Integer` is the default `long long` (64-bit two's complement), embedded
as `Int` together with explicit casts through `Nat` representatives modulo
2^64, mirroring `l_castS2U` / `l_castU2S` and C unsigned arithmetic.
`lua_Number` (IEEE double) is idealized as `ℚ`; the float arithmetic
primitives (`luai_numadd`, ... from `llimits.h`, which are raw C double
operations) are kept abstract in a `FloatOps` record, since the claims
settled here do not depend on the values float arithmetic produces.
-/

namespace LuaCore

/-! ## Integer representation and casts (`luaconf.h`, `llimits.h`) -/

/-- Word size of `lua_Integer` / `lua_Unsigned`: 64 bits (`LUA_INT_LONGLONG`,
the default in `luaconf.h`). -/
def wordCard : Nat := 2 ^ 64

/-- `LUA_MAXINTEGER` (`luaconf.h`): `LLONG_MAX` = 2^63 - 1. -/
def LUA_MAXINTEGER : Int := 2 ^ 63 - 1

/-- `LUA_MININTEGER` (`luaconf.h`): `LLONG_MIN` = -2^63. -/
def LUA_MININTEGER : Int := -(2 ^ 63)

/-- The set of values representable by `lua_Integer`. -/
def isLuaInteger (v : Int) : Prop :=
  LUA_MININTEGER ≤ v ∧ v ≤ LUA_MAXINTEGER

instance (v : Int) : Decidable (isLuaInteger v) := by
  unfold isLuaInteger; infer_instance

/-- `l_castS2U` (`llimits.h`): cast `lua_Integer` to `lua_Unsigned`.
C conversion to an unsigned 64-bit type is reduction modulo 2^64. -/
def l_castS2U (v : Int) : Nat := (v % (2 ^ 64 : Int)).toNat

/-- `l_castU2S` (`llimits.h`): cast `lua_Unsigned` back to `lua_Integer`.
The value is the two's-complement reading of the low 64 bits. -/
def l_castU2S (u : Nat) : Int :=
  if u % 2 ^ 64 < 2 ^ 63 then ((u % 2 ^ 64 : Nat) : Int)
  else ((u % 2 ^ 64 : Nat) : Int) - 2 ^ 64

/-! C arithmetic on `lua_Unsigned` operands (used inside the `intop` macro of
`lvm.h`): unsigned 64-bit operations, i.e. arithmetic modulo 2^64. -/

/-- Unsigned 64-bit addition. -/
def uadd64 (a b : Nat) : Nat := (a + b) % 2 ^ 64

/-- Unsigned 64-bit subtraction (operands are already reduced mod 2^64). -/
def usub64 (a b : Nat) : Nat := (a + 2 ^ 64 - b % 2 ^ 64) % 2 ^ 64

/-- Unsigned 64-bit multiplication. -/
def umul64 (a b : Nat) : Nat := (a * b) % 2 ^ 64

/-- `intop(op, v1, v2)` (`lvm.h` line 165): perform the operation on the
unsigned reinterpretations and cast the result back to `lua_Integer`. -/
def intop (f : Nat → Nat → Nat) (v1 v2 : Int) : Int :=
  l_castU2S (f (l_castS2U v1) (l_castS2U v2))

/-- The arithmetic/bitwise operation codes `LUA_OPADD` .. `LUA_OPBNOT`
(`lua.h`), in the same order. -/
inductive ArithOp where
  | add | sub | mul | mod | pow | div | idiv
  | band | bor | bxor | shl | shr | unm | bnot
deriving DecidableEq, Repr

/-- Reduce an arbitrary integer to the `lua_Integer` range by two's-complement
wrap-around (helper for the spec-modelled `lvm.c` functions). -/
def wrap64 (z : Int) : Int := l_castU2S (z % (2 ^ 64 : Int)).toNat

/-- Modelled from the spec: `luaV_idiv` lives in `lvm.c`, which is not part of
the sources; only its declaration (`lvm.h`) and callers are. The spec says
integer `//` is floor division with two's-complement wrap-around on overflow
("if both operands integer, integer result (with wrap-around on overflow)").
Floor division, wrapped; the spec does not specify a zero divisor, and
`Int.fdiv x 0 = 0` in this model. -/
def luaV_idiv (x y : Int) : Int := wrap64 (Int.fdiv x y)

/-- Modelled from the spec: `luaV_mod` lives in `lvm.c`, which is not part of
the sources. Lua's integer `%` is `m - floor(m/n)*n` (result keyed to the sign
of the divisor), which is exactly `Int.fmod`. -/
def luaV_mod (x y : Int) : Int := wrap64 (Int.fmod x y)

/-- Modelled from the spec: `luaV_shiftl` lives in `lvm.c`, which is not part
of the sources. Bitwise shifts are logical on the 64-bit unsigned
representation; a negative count shifts the other way and any count of
magnitude ≥ 64 yields 0. -/
def luaV_shiftl (x y : Int) : Int :=
  if y < 0 then
    if y ≤ -64 then 0 else l_castU2S (l_castS2U x >>> (-y).toNat)
  else
    if 64 ≤ y then 0 else l_castU2S ((l_castS2U x <<< y.toNat) % 2 ^ 64)

/-- `luaV_shiftr(x, y)` (`lvm.h` line 275): defined as
`luaV_shiftl(x, intop(-, 0, y))`. -/
def luaV_shiftr (x y : Int) : Int := luaV_shiftl x (intop usub64 0 y)

/-- `intarith` (`lobject.c`): integer arithmetic dispatch. `LUA_OPADD`,
`LUA_OPSUB`, `LUA_OPMUL` use `intop` with the C operator; `%` and `//` go
through `luaV_mod` / `luaV_idiv`; shifts through `luaV_shiftl` / `luaV_shiftr`;
unary minus is `intop(-, 0, v1)` and bitwise not is `intop(^, ~0, v1)`.
The `default: lua_assert(0); return 0` branch covers `div` and `pow`,
which are never routed here by `luaO_rawarith`. -/
def intarith (op : ArithOp) (v1 v2 : Int) : Int :=
  match op with
  | .add => intop uadd64 v1 v2
  | .sub => intop usub64 v1 v2
  | .mul => intop umul64 v1 v2
  | .mod => luaV_mod v1 v2
  | .idiv => luaV_idiv v1 v2
  | .band => intop (fun a b => a &&& b) v1 v2
  | .bor => intop (fun a b => a ||| b) v1 v2
  | .bxor => intop (fun a b => a ^^^ b) v1 v2
  | .shl => luaV_shiftl v1 v2
  | .shr => luaV_shiftr v1 v2
  | .unm => intop usub64 0 v1
  | .bnot => intop (fun a b => a ^^^ b) (l_castU2S (2 ^ 64 - 1)) v1
  | _ => 0


/-! ## Tagged values (`lobject.h`) -/

/-- `TValue` (`lobject.h`): the user-visible tagged values. The constructors
follow the base types `LUA_TNIL` .. `LUA_TTHREAD` with the variants relevant
here (`LUA_VNUMINT` / `LUA_VNUMFLT`, `LUA_VFALSE` / `LUA_VTRUE`).
`lua_Number` (an IEEE double) is idealized as `ℚ`; strings carry their byte
content and the remaining collectable objects an opaque heap id. -/
inductive TValue where
  | nil
  | boolean (b : Bool)
  | integer (i : Int)
  | float (n : ℚ)
  | strng (s : List Nat)
  | table (id : Nat)
  | func (id : Nat)
  | userdata (id : Nat)
  | lightuserdata (id : Nat)
  | thread (id : Nat)
deriving DecidableEq

/-- `l_isfalse` (`lobject.h` line 394): `ttisfalse(o) || ttisnil(o)`. -/
def l_isfalse (o : TValue) : Bool :=
  match o with
  | .nil => true
  | .boolean false => true
  | _ => false

/-- `ttisnumber` (`lobject.h`): integer or float variant. -/
def ttisnumber : TValue → Bool
  | .integer _ => true
  | .float _ => true
  | _ => false

/-- The raw `lua_Number` arithmetic primitives `luai_numadd`, `luai_numsub`,
`luai_nummul`, `luai_numdiv`, `luai_numpow`, `luai_numidiv`, `luai_numunm`
(`llimits.h`, plain C double operations) and `luaV_modf` (`lvm.c`), kept
abstract: the theorems below hold for every interpretation of them. -/
structure FloatOps where
  numadd : ℚ → ℚ → ℚ
  numsub : ℚ → ℚ → ℚ
  nummul : ℚ → ℚ → ℚ
  numdiv : ℚ → ℚ → ℚ
  numpow : ℚ → ℚ → ℚ
  numidiv : ℚ → ℚ → ℚ
  modf : ℚ → ℚ → ℚ
  numunm : ℚ → ℚ

/-- `numarith` (`lobject.c`): float arithmetic dispatch. The
`default: lua_assert(0); return 0` branch covers the bitwise codes, which
`luaO_rawarith` never routes here. -/
def numarith (fo : FloatOps) (op : ArithOp) (v1 v2 : ℚ) : ℚ :=
  match op with
  | .add => fo.numadd v1 v2
  | .sub => fo.numsub v1 v2
  | .mul => fo.nummul v1 v2
  | .div => fo.numdiv v1 v2
  | .pow => fo.numpow v1 v2
  | .idiv => fo.numidiv v1 v2
  | .unm => fo.numunm v1
  | .mod => fo.modf v1 v2
  | _ => 0

/-- Modelled from the spec: `luaV_flttointeger` with mode `F2Ieq` lives in
`lvm.c`, which is not among the sources (only its declaration in `lvm.h` is).
Per the spec and the `F2Imod` comments, `F2Ieq` does no rounding and "accepts
only integral values" that fit the `lua_Integer` range. -/
def luaV_flttointegerEq (n : ℚ) : Option Int :=
  if n.den = 1 ∧ isLuaInteger n.num then some n.num else none

/-- Modelled from the spec: `luaV_tointegerns` lives in `lvm.c` (declared in
`lvm.h` line 332): conversion to integer without string coercion. Integers
convert directly, floats via `luaV_flttointeger`, all else fails. Mode fixed
to the default `LUA_FLOORN2I = F2Ieq`. -/
def luaV_tointegernsEq : TValue → Option Int
  | .integer i => some i
  | .float n => luaV_flttointegerEq n
  | _ => none

/-- `tointegerns(o, i)` (`lvm.h` line 153): fast path for the integer variant,
otherwise `luaV_tointegerns` with the default mode. -/
def tointegerns : TValue → Option Int
  | .integer i => some i
  | o => luaV_tointegernsEq o

/-- `tonumberns(o, n)` (`lvm.h` line 123): floats directly, integers through
`cast_num` (exact in the idealized `ℚ` model), no other conversion. -/
def tonumberns : TValue → Option ℚ
  | .float n => some n
  | .integer i => some (i : ℚ)
  | _ => none

/-- `luaO_rawarith` (`lobject.c` lines 449-527), the result cell modelled as
an `Option`: `some v` for `return 1` with result `v` written to `res`,
`none` for `return 0` (nothing written). Bitwise codes operate only on
integers (via `tointegerns`), `/` and `^` only on floats (via `tonumberns`),
the rest on integers when both operands are integers and otherwise on
floats. -/
def luaO_rawarith (fo : FloatOps) (op : ArithOp) (p1 p2 : TValue) : Option TValue :=
  match op with
  | .band | .bor | .bxor | .shl | .shr | .bnot =>
    match tointegerns p1, tointegerns p2 with
    | some i1, some i2 => some (.integer (intarith op i1 i2))
    | _, _ => none
  | .div | .pow =>
    match tonumberns p1, tonumberns p2 with
    | some n1, some n2 => some (.float (numarith fo op n1 n2))
    | _, _ => none
  | _ =>
    match p1, p2 with
    | .integer i1, .integer i2 => some (.integer (intarith op i1 i2))
    | _, _ =>
      match tonumberns p1, tonumberns p2 with
      | some n1, some n2 => some (.float (numarith fo op n1 n2))
      | _, _ => none

/-- A concrete interpretation of the abstract float primitives (exact
rational arithmetic; `pow` truncated to integral exponents), used only to
instantiate witnesses. -/
def qFloatOps : FloatOps :=
  ⟨fun a b => a + b, fun a b => a - b, fun a b => a * b, fun a b => a / b,
   fun a b => if 0 ≤ b.num ∧ b.den = 1 then a ^ b.num.toNat else 0,
   fun a b => ((a / b).floor : ℚ), fun a b => a - b * ((a / b).floor : ℚ),
   fun a => -a⟩

/-! ## The thread state fragment touched by the stack API (`lapi.c`) -/

/-- The fragment of `lua_State` that `index2value`, `lua_pushvalue` and
`lua_settop` read or write. Stack positions are measured in slots above
`ci->func`: the current function sits at position 0, the i-th stack value at
position i, and platform pointer `L->top.p` corresponds to position
`stack.length + 1`. `tbclist` is the position of the newest to-be-closed
slot (`L->tbclist.p`; at or below 0 when none is in this frame); `registry`
is `G(L)->l_registry`; `cUpvals` is `some` of the upvalue list when
`ci->func` holds a C closure. -/
structure LuaState where
  stack : List TValue
  tbclist : Int
  registry : TValue
  cUpvals : Option (List TValue)
deriving DecidableEq

/-- `LUA_REGISTRYINDEX` (`lua.h`): `-LUAI_MAXSTACK - 1000` = -1001000. -/
def LUA_REGISTRYINDEX : Int := -1001000

/-- `ispseudo(i)` (`lua.h`): `i <= LUA_REGISTRYINDEX`. -/
def ispseudo (i : Int) : Bool := i ≤ LUA_REGISTRYINDEX

/-- `index2value` (`lapi.c` line 133). A positive index addresses position
`idx` above `ci->func`, reading the global `nilvalue` at or above the top; a
negative non-pseudo index addresses position `top + idx`; the registry and
C-closure upvalues answer the pseudo indices (one past the upvalues the
global `nilvalue` is read, as in the C code). `api_check` is a release-mode
no-op, so below-stack reads are modelled by the `getD` default. -/
def index2value (L : LuaState) (idx : Int) : TValue :=
  if 0 < idx then
    if (L.stack.length : Int) < idx then .nil
    else L.stack.getD (idx - 1).toNat .nil
  else if ¬ ispseudo idx then
    L.stack.getD ((L.stack.length : Int) + idx).toNat .nil
  else if idx = LUA_REGISTRYINDEX then
    L.registry
  else
    match L.cUpvals with
    | some ups => ups.getD (LUA_REGISTRYINDEX - idx - 1).toNat .nil
    | none => .nil

/-- `lua_toboolean` (`lapi.c` line 825): `!l_isfalse(index2value(L, idx))`. -/
def lua_toboolean (L : LuaState) (idx : Int) : Bool :=
  ! l_isfalse (index2value L idx)

/-- `lua_pushvalue` (`lapi.c` line 536): copy the value at `idx` into the top
slot and increment the top. -/
def lua_pushvalue (L : LuaState) (idx : Int) : LuaState :=
  { L with stack := L.stack ++ [index2value L idx] }

/-- `lua_settop` (`lapi.c` line 377). For `idx >= 0` the new top is
`func + 1 + idx`, any new slots nil-filled; for `idx < 0` it is
`top + idx + 1`. When the shrink would pop a pending to-be-closed slot
(`L->tbclist.p >= newtop`), the C code calls `luaF_close` (`lfunc.c`, outside
the modelled fragment); that branch is `none` here. -/
def lua_settop (L : LuaState) (idx : Int) : Option LuaState :=
  let n : Int := L.stack.length
  let diff : Int := if 0 ≤ idx then idx - n else idx + 1
  if 0 ≤ idx ∧ 0 < diff then
    some { L with stack := L.stack ++ List.replicate diff.toNat TValue.nil }
  else if diff < 0 ∧ n + 1 + diff ≤ L.tbclist then
    none
  else
    some { L with stack := L.stack.take (n + diff).toNat }

/-- An index addressing an existing stack slot: the `api_check` conditions of
`index2value` for real (non-pseudo) stack indices. -/
def validStackIndex (L : LuaState) (idx : Int) : Prop :=
  (0 < idx ∧ idx ≤ L.stack.length) ∨ (idx < 0 ∧ -(L.stack.length : Int) ≤ idx)

/-- A sample state for witnesses. -/
def sampleState : LuaState :=
  ⟨[TValue.integer 7, TValue.strng []], 0, TValue.table 0, none⟩


/-! ## GC byte accounting (`lstate.h`, `lstate.c`) -/

/-- `MAX_LMEM` (`llimits.h`): maximum of the signed `l_mem` type
(`ptrdiff_t`, 64-bit): 2^63 - 1. -/
def MAX_LMEM : Int := 2 ^ 63 - 1

/-- The fragment of `global_State` (`lstate.h`) that `luaE_setdebt` touches:
`GCtotalbytes` (bytes allocated plus debt) and `GCdebt` (bytes counted but
not yet allocated), plus an abstract remainder `rest` standing for every
other field. -/
structure GlobalState (R : Type) where
  GCtotalbytes : Int
  GCdebt : Int
  rest : R

/-- `gettotalbytes(g)` (`lstate.h` line 1033): `GCtotalbytes - GCdebt`. -/
def gettotalbytes {R : Type} (g : GlobalState R) : Int :=
  g.GCtotalbytes - g.GCdebt

/-- `luaE_setdebt` (`lstate.c` lines 98-106): set `GCdebt` to `debt` keeping
the real total unchanged, clamping `debt` so `GCtotalbytes` cannot exceed
`MAX_LMEM`. -/
def luaE_setdebt {R : Type} (g : GlobalState R) (debt : Int) : GlobalState R :=
  let tb := gettotalbytes g
  let debt1 := if debt > MAX_LMEM - tb then MAX_LMEM - tb else debt
  { g with GCtotalbytes := tb + debt1, GCdebt := debt1 }


/-! ## Short-string interning (`lstring.h`, spec section 3.3) -/

/-- `LUAI_MAXSHORTLEN` (`lstring.h` line 116): 40, the interning cap. -/
def LUAI_MAXSHORTLEN : Nat := 40

/-- Modelled from the spec: the string table and `internshrstr` live in
`lstring.c`, which is not among the sources (only `lstring.h` is). The table
is the list of byte contents of the live interned short strings and object
identity is the position in that list. Per the spec invariant, the routine
searches the table before allocating and reuses the existing object when the
bytes match. -/
def internshrstr (tb : List (List Nat)) (s : List Nat) : List (List Nat) × Nat :=
  match tb.findIdx? (fun t => t == s) with
  | some i => (tb, i)
  | none => (tb ++ [s], tb.length)

/-- Modelled from the spec: `luaS_newlstr` (`lstring.c`): strings of length
at most `LUAI_MAXSHORTLEN` are interned through `internshrstr`; longer ones
become fresh long-string objects that never enter the table. Returns the
updated table and the id of the short string (`none` for a long string). -/
def luaS_newlstr (tb : List (List Nat)) (s : List Nat) : List (List Nat) × Option Nat :=
  if s.length ≤ LUAI_MAXSHORTLEN then
    ((internshrstr tb s).1, some (internshrstr tb s).2)
  else (tb, none)

/-- The string table reached from the empty table of a fresh state by a
sequence of string-creating operations. -/
def runNewStr (reqs : List (List Nat)) : List (List Nat) :=
  reqs.foldl (fun tb s => (luaS_newlstr tb s).1) []


/-! ## String to number conversion (`lobject.c`, `lctype.h`) -/

/-- `lisspace` (`lctype.h`): the C space characters, i.e. `' '` (32) and
`'\t'` `'\n'` `'\v'` `'\f'` `'\r'` (9-13), by code point. -/
def lisspace (c : Char) : Bool :=
  c.toNat = 32 || (9 ≤ c.toNat && c.toNat ≤ 13)

/-- `lisdigit` (`lctype.h`): `'0'` (48) through `'9'` (57). -/
def lisdigit (c : Char) : Bool :=
  48 ≤ c.toNat && c.toNat ≤ 57

/-- `lisxdigit` (`lctype.h`): digits plus `'a'`-`'f'` (97-102) and
`'A'`-`'F'` (65-70). -/
def lisxdigit (c : Char) : Bool :=
  lisdigit c || (97 ≤ c.toNat && c.toNat ≤ 102) || (65 ≤ c.toNat && c.toNat ≤ 70)

/-- `luaO_hexavalue` (`lobject.c`): digit value of a hex digit; letters are
lowercased by `| 0x20` and offset from `'a'` (97). -/
def luaO_hexavalue (c : Char) : Nat :=
  if lisdigit c then c.toNat - 48 else (c.toNat ||| 0x20) - 97 + 10

/-- `isneg` (`lobject.c` line 621): strip one optional sign character
(`'-'` is 45, `'+'` is 43), reporting whether it was a minus. -/
def isneg : List Char → Bool × List Char
  | c :: s =>
    if c.toNat = 45 then (true, s)
    else if c.toNat = 43 then (false, s)
    else (false, c :: s)
  | [] => (false, [])

/-- `MAXBY10` (`lobject.c` line 936): `LUA_MAXINTEGER / 10`. -/
def MAXBY10 : Nat := (2 ^ 63 - 1) / 10

/-- `MAXLASTD` (`lobject.c` line 937): `LUA_MAXINTEGER % 10`. -/
def MAXLASTD : Nat := (2 ^ 63 - 1) % 10

/-- The test `s[0] == '0' && (s[1] == 'x' || s[1] == 'X')` of `l_str2int`
(`'0'` is 48, `'x'` 120, `'X'` 88). -/
def hasHexMark : List Char → Bool
  | c0 :: c1 :: _ => c0.toNat = 48 && (c1.toNat = 120 || c1.toNat = 88)
  | _ => false

/-- The hexadecimal loop of `l_str2int` (`lobject.c`): accumulate
`a = a*16 + hexavalue` in `lua_Unsigned` arithmetic (mod 2^64, no overflow
check), clearing the `empty` flag, until a non-hex-digit; returns the
accumulator, the flag and the unconsumed remainder. -/
def str2intHexLoop : List Char → Nat → Bool → Nat × Bool × List Char
  | c :: s, a, empty =>
    if lisxdigit c then
      str2intHexLoop s ((a * 16 + luaO_hexavalue c) % 2 ^ 64) false
    else (a, empty, c :: s)
  | [], a, empty => (a, empty, [])

/-- The decimal loop of `l_str2int` (`lobject.c`): accumulate `a = a*10 + d`,
returning `none` (reject the numeral) as soon as
`a >= MAXBY10 && (a > MAXBY10 || d > MAXLASTD + neg)`; `neg` is 1 for a
negated numeral (allowing magnitude 2^63) and 0 otherwise. -/
def str2intDecLoop : List Char → Nat → Bool → Nat → Option (Nat × Bool × List Char)
  | c :: s, a, empty, neg =>
    if lisdigit c then
      if MAXBY10 ≤ a ∧ (MAXBY10 < a ∨ MAXLASTD + neg < c.toNat - 48) then none
      else str2intDecLoop s ((a * 10 + (c.toNat - 48)) % 2 ^ 64) false neg
    else some (a, empty, c :: s)
  | [], a, empty, _ => some (a, empty, [])

/-- `l_str2int` (`lobject.c` lines 962-1027): parse an optionally signed
decimal or hexadecimal integer numeral with surrounding spaces. `none`
models the NULL return; on success the value is `0u - a` resp. `a` cast
back to `lua_Integer`. -/
def l_str2int (s : List Char) : Option Int :=
  let s1 := s.dropWhile lisspace
  let pr := isneg s1
  let body :=
    if hasHexMark pr.2 then some (str2intHexLoop (pr.2.drop 2) 0 true)
    else str2intDecLoop pr.2 0 true (if pr.1 then 1 else 0)
  match body with
  | none => none
  | some (a, empty, rest) =>
    if empty = true ∨ rest.dropWhile lisspace ≠ [] then none
    else some (l_castU2S (if pr.1 then (2 ^ 64 - a) % 2 ^ 64 else a))

/-- `luaO_str2num` (`lobject.c` lines 1051-1080): try the integer conversion
first, then the float one. `l_str2d` parses floats through the C library
`strtod`, so it is a parameter here; both conversions succeed only when they
consume the whole string, and the returned size is the string length plus one
(for the terminator), as in the C code. -/
def luaO_str2num (str2d : List Char → Option ℚ) (s : List Char) :
    Option (TValue × Nat) :=
  match l_str2int s with
  | some i => some (TValue.integer i, s.length + 1)
  | none =>
    match str2d s with
    | some n => some (TValue.float n, s.length + 1)
    | none => none

/-- The mathematical value of a decimal digit string, accumulator style. -/
def decValueFrom (a : Nat) (ds : List Char) : Nat :=
  ds.foldl (fun v c => v * 10 + (c.toNat - 48)) a

/-- The signed value denoted by a sign-part and a decimal digit string. -/
def decSignedValue (sgn ds : List Char) : Int :=
  (if sgn = [Char.ofNat 45] then -1 else 1) * (decValueFrom 0 ds : Int)

/-- A list that is empty or starts with a non-digit (the stopping condition
of the decimal loop). -/
def headNotDigit : List Char → Prop
  | [] => True
  | c :: _ => lisdigit c = false


/-! ## UTF-8 encoding (`lobject.c`) -/

/-- `UTF8BUFFSZ` (`lobject.h` line 1258): 8, the buffer size for
`luaO_utf8esc`. -/
def UTF8BUFFSZ : Nat := 8

/-- The do-while loop of `luaO_utf8esc` (`lobject.c` lines 1109-1143) on the
buffer (a list of byte values): store the continuation byte
`0x80 | (x & 0x3f)` at `buff[UTF8BUFFSZ - n]`, advance `n`, shift `x` right
by 6 and `mfb` right by 1 (`& 0x3f`, `>> 6`, `>> 1` written as `% 64`,
`/ 64`, `/ 2`), repeating while `x > mfb`. Returns the buffer and the final
`x`, `mfb`, `n`. -/
def utf8escLoop (buff : List Nat) (x mfb n : Nat) : List Nat × Nat × Nat × Nat :=
  let buff1 := buff.set (UTF8BUFFSZ - n) (0x80 ||| x % 64)
  let x1 := x / 64
  let mfb1 := mfb / 2
  let n1 := n + 1
  if mfb1 < x1 then utf8escLoop buff1 x1 mfb1 n1 else (buff1, x1, mfb1, n1)
termination_by x
decreasing_by
  omega

/-- The first-byte computation `cast_char((~mfb << 1) | x)` of
`luaO_utf8esc`: bitwise complement of `mfb` as a 32-bit `unsigned int`
(that is, `0xFFFFFFFF - mfb`), shifted left one place mod 2^32, or-ed with
the leftover payload and truncated to a byte by the cast to `char`. -/
def utf8FirstByte (mfb x : Nat) : Nat :=
  ((0xFFFFFFFF - mfb) * 2 % 2 ^ 32 ||| x) % 2 ^ 8

/-- `luaO_utf8esc` (`lobject.c` lines 1109-1143): encode code point `x`
(at most 0x7FFFFFFF) backwards into the tail of the 8-byte buffer:
ASCII directly as one byte, otherwise continuation bytes through the loop
and then the first byte at `buff[UTF8BUFFSZ - n]`. Returns the byte count
`n` and the updated buffer. -/
def luaO_utf8esc (buff : List Nat) (x : Nat) : Nat × List Nat :=
  if x < 0x80 then (1, buff.set (UTF8BUFFSZ - 1) x)
  else
    let r := utf8escLoop buff x 0x3f 1
    (r.2.2.2, r.1.set (UTF8BUFFSZ - r.2.2.2) (utf8FirstByte r.2.2.1 r.2.1))

/-- A standard generalized UTF-8 decoder (up to 6 bytes), used to state that
the emitted byte sequence encodes the code point: the first byte's range
determines the count of continuation bytes and the payload bits; every
continuation byte must lie in `[0x80, 0xC0)` and contributes its low 6
bits. -/
def utf8decode (bs : List Nat) : Option Nat :=
  match bs with
  | [] => none
  | b :: cont =>
    let payload : Option Nat :=
      if b < 0x80 then (if cont.length = 0 then some b else none)
      else if 0xC0 ≤ b ∧ b < 0xE0 then (if cont.length = 1 then some (b - 0xC0) else none)
      else if 0xE0 ≤ b ∧ b < 0xF0 then (if cont.length = 2 then some (b - 0xE0) else none)
      else if 0xF0 ≤ b ∧ b < 0xF8 then (if cont.length = 3 then some (b - 0xF0) else none)
      else if 0xF8 ≤ b ∧ b < 0xFC then (if cont.length = 4 then some (b - 0xF8) else none)
      else if 0xFC ≤ b ∧ b < 0xFE then (if cont.length = 5 then some (b - 0xFC) else none)
      else none
    match payload with
    | none => none
    | some p =>
      if cont.all (fun c => 0x80 ≤ c && c < 0xC0) then
        some (cont.foldl (fun v c => v * 64 + c % 64) p)
      else none


end LuaCore

namespace LuaCore


/-! ## C1, C3: `luaO_rawarith` typing -/

theorem tointegerns_isSome_iff (v : TValue) :
    (tointegerns v).isSome ↔
      ((∃ i, v = .integer i) ∨ ∃ n, v = .float n ∧ n.den = 1 ∧ isLuaInteger n.num) := by
  cases v <;>
    simp [tointegerns, luaV_tointegernsEq, luaV_flttointegerEq]

/-- C1: on numeric operands, `luaO_rawarith` with `LUA_OPDIV` or `LUA_OPPOW`
always succeeds with a float result (even on two integers), and with
`LUA_OPADD`, `LUA_OPSUB`, `LUA_OPMUL`, `LUA_OPIDIV` or `LUA_OPMOD` on two
integer operands it succeeds with an integer result. -/
theorem rawarith_div_pow_float_intops_int (fo : FloatOps) (p1 p2 : TValue)
    (h1 : ttisnumber p1 = true) (h2 : ttisnumber p2 = true) :
    (∀ op, (op = ArithOp.div ∨ op = ArithOp.pow) →
      ∃ q, luaO_rawarith fo op p1 p2 = some (.float q)) ∧
    (∀ i1 i2 op, p1 = .integer i1 → p2 = .integer i2 →
      (op = ArithOp.add ∨ op = ArithOp.sub ∨ op = ArithOp.mul ∨
        op = ArithOp.idiv ∨ op = ArithOp.mod) →
      ∃ n, luaO_rawarith fo op p1 p2 = some (.integer n)) := by
  constructor
  · rintro op (rfl | rfl) <;>
      cases p1 <;> cases p2 <;>
        simp_all [luaO_rawarith, tonumberns, ttisnumber]
  · rintro i1 i2 op rfl rfl (rfl | rfl | rfl | rfl | rfl) <;>
      simp [luaO_rawarith]

/-- Witness for C1: `1 / 2` on two integers yields a float. -/
theorem rawarith_div_pow_float_intops_int_witness :
    ∃ q, luaO_rawarith qFloatOps .div (.integer 1) (.integer 2) = some (.float q) :=
  (rawarith_div_pow_float_intops_int qFloatOps (.integer 1) (.integer 2)
    rfl rfl).1 .div (Or.inl rfl)

/-- C3: `luaO_rawarith` with a bitwise code succeeds exactly when both
operands convert to integers under the exact mode `F2Ieq` (integers always,
floats exactly when their value is integral and in the `lua_Integer` range);
otherwise it fails with no result written (`none` in this model). -/
theorem rawarith_bitwise_isSome_iff (fo : FloatOps) (op : ArithOp)
    (hop : op = ArithOp.band ∨ op = ArithOp.bor ∨ op = ArithOp.bxor ∨
      op = ArithOp.shl ∨ op = ArithOp.shr ∨ op = ArithOp.bnot)
    (p1 p2 : TValue) :
    (luaO_rawarith fo op p1 p2).isSome ↔
      (((∃ i, p1 = .integer i) ∨ ∃ n, p1 = .float n ∧ n.den = 1 ∧ isLuaInteger n.num) ∧
       ((∃ i, p2 = .integer i) ∨ ∃ n, p2 = .float n ∧ n.den = 1 ∧ isLuaInteger n.num)) := by
  rw [← tointegerns_isSome_iff p1, ← tointegerns_isSome_iff p2]
  obtain (rfl | rfl | rfl | rfl | rfl | rfl) := hop <;>
    rcases h1 : tointegerns p1 with _ | i1 <;>
      rcases h2 : tointegerns p2 with _ | i2 <;>
        simp [luaO_rawarith, h1, h2]

/-- Witness for C3: band on an exact float (2.0) and an integer succeeds;
the general theorem instantiated at concrete operands. -/
theorem rawarith_bitwise_isSome_iff_witness :
    (luaO_rawarith qFloatOps .band (.float 2) (.integer 3)).isSome :=
  (rawarith_bitwise_isSome_iff qFloatOps .band (Or.inl rfl)
    (.float 2) (.integer 3)).mpr
    ⟨Or.inr ⟨2, rfl, by decide, by decide⟩, Or.inl ⟨3, rfl⟩⟩

/-! ## C5: truthiness -/

/-- C5: `lua_toboolean` returns false exactly when the addressed value is nil
or the boolean false; every other value (integer 0, float 0.0 and the empty
string included) is truthy. -/
theorem lua_toboolean_false_iff (L : LuaState) (idx : Int) :
    lua_toboolean L idx = false ↔
      index2value L idx = TValue.nil ∨ index2value L idx = TValue.boolean false := by
  rcases h : index2value L idx with _ | b | i | n | s | t | f | u | l | th <;>
    simp [lua_toboolean, l_isfalse, h]
  cases b <;> simp

/-! ## C6: push then pop is the identity -/

/-- C6: for a valid stack index, `lua_pushvalue` followed by popping one
value (`lua_settop(L, -2)`) restores the state exactly: same stack height,
same slots, all other fields untouched. -/
theorem pushvalue_pop_id (L : LuaState) (idx : Int)
    (_hidx : validStackIndex L idx) (htbc : L.tbclist ≤ (L.stack.length : Int)) :
    lua_settop (lua_pushvalue L idx) (-2) = some L := by
  unfold lua_settop lua_pushvalue
  have hlen : ((L.stack ++ [index2value L idx]).length : Int)
      = (L.stack.length : Int) + 1 := by simp
  simp only [hlen]
  have hneg : ¬ (0 ≤ (-2 : Int)) := by norm_num
  simp only [if_neg hneg, hneg, false_and, if_false]
  have hcond : ¬ ((-2 : Int) + 1 < 0 ∧
      (L.stack.length : Int) + 1 + 1 + ((-2 : Int) + 1) ≤ L.tbclist) := by
    omega
  rw [if_neg hcond]
  have htake : ((L.stack.length : Int) + 1 + ((-2 : Int) + 1)).toNat
      = L.stack.length := by omega
  rw [htake]
  simp

/-- Witness for C6 at a concrete two-value stack. -/
theorem pushvalue_pop_id_witness :
    lua_settop (lua_pushvalue sampleState 1) (-2) = some sampleState :=
  pushvalue_pop_id sampleState 1 (Or.inl (by constructor <;> decide))
    (by decide)


/-! ## C9: `luaE_setdebt` frame conditions -/

/-- C9: `luaE_setdebt` leaves `gettotalbytes` unchanged and every field other
than `GCtotalbytes` and `GCdebt` untouched; `GCdebt` becomes `d` unless the
overflow clamp reduces it, in which case `GCtotalbytes` lands exactly on
`MAX_LMEM`. -/
theorem luaE_setdebt_spec (R : Type) (g : GlobalState R) (d : Int) :
    gettotalbytes (luaE_setdebt g d) = gettotalbytes g ∧
    (luaE_setdebt g d).rest = g.rest ∧
    (luaE_setdebt g d).GCdebt =
      (if d > MAX_LMEM - gettotalbytes g then MAX_LMEM - gettotalbytes g else d) ∧
    (luaE_setdebt g d).GCtotalbytes =
      (if d > MAX_LMEM - gettotalbytes g then MAX_LMEM else gettotalbytes g + d) := by
  unfold luaE_setdebt gettotalbytes
  constructor
  · dsimp only; split <;> ring
  refine ⟨rfl, rfl, ?_⟩
  dsimp only; split <;> ring


/-! ## C4: short strings are interned uniquely -/

theorem internshrstr_nodup (tb : List (List Nat)) (s : List Nat)
    (h : tb.Nodup) : (internshrstr tb s).1.Nodup := by
  unfold internshrstr
  cases hf : tb.findIdx? (fun t => t == s) with
  | some i => exact h
  | none =>
    rw [List.findIdx?_eq_none_iff] at hf
    refine List.Nodup.append h (List.nodup_singleton s) ?_
    intro a ha hb
    have := hf a ha
    simp at this hb
    exact this hb

theorem luaS_newlstr_nodup (tb : List (List Nat)) (s : List Nat)
    (h : tb.Nodup) : (luaS_newlstr tb s).1.Nodup := by
  unfold luaS_newlstr
  split
  · exact internshrstr_nodup tb s h
  · exact h

theorem runNewStr_aux_nodup (reqs : List (List Nat)) (tb : List (List Nat))
    (h : tb.Nodup) :
    (reqs.foldl (fun tb s => (luaS_newlstr tb s).1) tb).Nodup := by
  induction reqs generalizing tb with
  | nil => exact h
  | cons r rs ih => exact ih _ (luaS_newlstr_nodup tb r h)

/-- C4: after every sequence of string-creating operations, no two live short
strings have identical bytes: the table of interned short-string contents has
no duplicates, and two short-string objects (table positions) with the same
bytes are the same object. -/
theorem short_strings_unique (reqs : List (List Nat)) :
    (runNewStr reqs).Nodup ∧
    ∀ i j, i < (runNewStr reqs).length → j < (runNewStr reqs).length →
      (runNewStr reqs).getD i [] = (runNewStr reqs).getD j [] → i = j := by
  have hnd : (runNewStr reqs).Nodup := runNewStr_aux_nodup reqs [] List.nodup_nil
  refine ⟨hnd, fun i j hi hj hij => ?_⟩
  rw [List.getD_eq_getElem _ _ hi, List.getD_eq_getElem _ _ hj] at hij
  have h2 : (⟨i, hi⟩ : Fin (runNewStr reqs).length) = ⟨j, hj⟩ :=
    List.nodup_iff_injective_getElem.mp hnd hij
  simpa using h2

/-- Witness for C4: creating the same bytes twice yields the same object. -/
theorem short_strings_unique_witness :
    (runNewStr [[1], [1], [2]]).Nodup ∧ (0 : Nat) = 0 :=
  ⟨(short_strings_unique [[1], [1], [2]]).1,
   (short_strings_unique [[1], [1], [2]]).2 0 0 (by decide) (by decide) (by decide)⟩


/-! ## C8: decimal numerals and the integer range -/

theorem decCheck_iff (a dv neg : Nat) (hneg : neg ≤ 1) (hdv : dv ≤ 9) :
    (MAXBY10 ≤ a ∧ (MAXBY10 < a ∨ MAXLASTD + neg < dv)) ↔
      2 ^ 63 - 1 + neg < a * 10 + dv := by
  unfold MAXBY10 MAXLASTD
  omega

theorem decValueFrom_cons (a : Nat) (c : Char) (ds : List Char) :
    decValueFrom a (c :: ds) = decValueFrom (a * 10 + (c.toNat - 48)) ds := rfl

theorem decValueFrom_le (a : Nat) (ds : List Char) : a ≤ decValueFrom a ds := by
  induction ds generalizing a with
  | nil => exact le_rfl
  | cons c ds ih =>
    rw [decValueFrom_cons]
    exact le_trans (by omega) (ih _)

theorem lisdigit_not_space (c : Char) (h : lisdigit c = true) :
    lisspace c = false := by
  unfold lisdigit at h
  unfold lisspace
  simp at h ⊢
  omega

theorem lisspace_not_digit (c : Char) (h : lisspace c = true) :
    lisdigit c = false := by
  unfold lisspace at h
  unfold lisdigit
  simp at h ⊢
  omega

theorem dropWhile_all (p : Char → Bool) (l1 l2 : List Char)
    (h : ∀ c ∈ l1, p c = true) :
    (l1 ++ l2).dropWhile p = l2.dropWhile p := by
  induction l1 with
  | nil => rfl
  | cons c l1 ih =>
    rw [List.cons_append, List.dropWhile_cons_of_pos (h c (List.mem_cons_self c l1))]
    exact ih fun x hx => h x (List.mem_cons_of_mem c hx)

theorem str2intDecLoop_spec (sfx : List Char) (neg : Nat)
    (hsfx : headNotDigit sfx) (hneg : neg ≤ 1) :
    ∀ (ds : List Char) (a : Nat) (empty : Bool),
      (∀ c ∈ ds, lisdigit c = true) → a ≤ 2 ^ 63 - 1 + neg →
      ((decValueFrom a ds ≤ 2 ^ 63 - 1 + neg →
        str2intDecLoop (ds ++ sfx) a empty neg =
          some (decValueFrom a ds, if ds.isEmpty then empty else false, sfx)) ∧
       (2 ^ 63 - 1 + neg < decValueFrom a ds →
        str2intDecLoop (ds ++ sfx) a empty neg = none)) := by
  intro ds
  induction ds with
  | nil =>
    intro a empty _ ha
    refine ⟨fun _ => ?_, fun h => ?_⟩
    · cases sfx with
      | nil => simp [str2intDecLoop, decValueFrom]
      | cons c rest =>
        unfold headNotDigit at hsfx
        simp [str2intDecLoop, hsfx, decValueFrom]
    · unfold decValueFrom at h
      simp at h
      omega
  | cons c ds ih =>
    intro a empty hds ha
    have hc : lisdigit c = true := hds c (List.mem_cons_self c ds)
    have hdv : c.toNat - 48 ≤ 9 := by
      unfold lisdigit at hc; simp at hc; omega
    have hds' : ∀ x ∈ ds, lisdigit x = true :=
      fun x hx => hds x (List.mem_cons_of_mem c hx)
    rw [decValueFrom_cons]
    by_cases hover : 2 ^ 63 - 1 + neg < a * 10 + (c.toNat - 48)
    · have hcheck : MAXBY10 ≤ a ∧ (MAXBY10 < a ∨ MAXLASTD + neg < c.toNat - 48) :=
        (decCheck_iff a _ neg hneg hdv).mpr hover
      have hnone : str2intDecLoop ((c :: ds) ++ sfx) a empty neg = none := by
        simp [str2intDecLoop, hc, hcheck]
      have hbig : 2 ^ 63 - 1 + neg < decValueFrom (a * 10 + (c.toNat - 48)) ds :=
        lt_of_lt_of_le hover (decValueFrom_le _ ds)
      exact ⟨fun h => absurd h (by omega), fun _ => hnone⟩
    · push_neg at hover
      have hcheck : ¬ (MAXBY10 ≤ a ∧ (MAXBY10 < a ∨ MAXLASTD + neg < c.toNat - 48)) := by
        rw [decCheck_iff a _ neg hneg hdv]; omega
      have hmod : (a * 10 + (c.toNat - 48)) % 2 ^ 64 = a * 10 + (c.toNat - 48) := by
        apply Nat.mod_eq_of_lt; omega
      have hstep : str2intDecLoop ((c :: ds) ++ sfx) a empty neg =
          str2intDecLoop (ds ++ sfx) (a * 10 + (c.toNat - 48)) false neg := by
        simp only [List.cons_append, str2intDecLoop, hc, if_true, if_neg hcheck]
        rw [hmod]
        rfl
      rw [hstep]
      obtain ⟨ih1, ih2⟩ := ih (a * 10 + (c.toNat - 48)) false hds' hover
      refine ⟨fun h => ?_, fun h => ih2 h⟩
      rw [ih1 h]
      simp


theorem l_castU2S_small (a : Nat) (h : a ≤ 2 ^ 63 - 1) : l_castU2S a = (a : Int) := by
  unfold l_castU2S
  split <;> omega

theorem l_castU2S_negOf (a : Nat) (h : a ≤ 2 ^ 63) :
    l_castU2S ((2 ^ 64 - a) % 2 ^ 64) = -(a : Int) := by
  unfold l_castU2S
  split <;> omega

theorem hasHexMark_of_digits (d : Char) (t : List Char) (_hd : lisdigit d = true)
    (ht : ∀ c ∈ t, lisdigit c = true ∨ lisspace c = true) :
    hasHexMark (d :: t) = false := by
  cases t with
  | nil => rfl
  | cons c1 r =>
    have h1 : c1.toNat ≤ 57 := by
      rcases ht c1 (List.mem_cons_self c1 r) with h | h
      · unfold lisdigit at h; simp at h; omega
      · unfold lisspace at h; simp at h; omega
    simp only [hasHexMark, Bool.and_eq_false_iff]
    right
    simp only [Bool.or_eq_false_iff, decide_eq_false_iff_not]
    omega

theorem dropWhile_of_allspace (l : List Char) (h : ∀ c ∈ l, lisspace c = true) :
    l.dropWhile lisspace = [] := by
  have h2 := dropWhile_all lisspace l [] h
  simpa using h2

/-- C8: a decimal numeral (leading spaces, optional sign, nonempty digit
string, trailing spaces) is accepted by `l_str2int`, with its exact value,
precisely when that value lies in `[LUA_MININTEGER, LUA_MAXINTEGER]`;
an out-of-range decimal numeral is rejected (NULL return) rather than
silently wrapped, so `luaO_str2num` falls back to the float conversion. -/
theorem l_str2int_decimal_range (sp1 sgn ds sp2 : List Char)
    (hsp1 : ∀ c ∈ sp1, lisspace c = true) (hsp2 : ∀ c ∈ sp2, lisspace c = true)
    (hne : ds ≠ []) (hds : ∀ c ∈ ds, lisdigit c = true)
    (hsgn : sgn = [] ∨ sgn = [Char.ofNat 43] ∨ sgn = [Char.ofNat 45]) :
    (isLuaInteger (decSignedValue sgn ds) →
      l_str2int (sp1 ++ sgn ++ ds ++ sp2) = some (decSignedValue sgn ds)) ∧
    (¬ isLuaInteger (decSignedValue sgn ds) →
      l_str2int (sp1 ++ sgn ++ ds ++ sp2) = none ∧
      ∀ str2d q, str2d (sp1 ++ sgn ++ ds ++ sp2) = some q →
        luaO_str2num str2d (sp1 ++ sgn ++ ds ++ sp2) =
          some (TValue.float q, (sp1 ++ sgn ++ ds ++ sp2).length + 1)) := by
  obtain ⟨d, ds', rfl⟩ : ∃ d t, ds = d :: t := by
    cases ds with
    | nil => exact absurd rfl hne
    | cons d t => exact ⟨d, t, rfl⟩
  have hd : lisdigit d = true := hds d (List.mem_cons_self d ds')
  have hd57 : 48 ≤ d.toNat ∧ d.toNat ≤ 57 := by
    unfold lisdigit at hd; simp at hd; omega
  have hsfx : headNotDigit sp2 := by
    cases sp2 with
    | nil => trivial
    | cons c r =>
      show lisdigit c = false
      exact lisspace_not_digit c (hsp2 c (List.mem_cons_self c r))
  have hmix : ∀ c ∈ ds' ++ sp2, lisdigit c = true ∨ lisspace c = true := by
    intro c hc
    rcases List.mem_append.mp hc with h | h
    · exact Or.inl (hds c (List.mem_cons_of_mem d h))
    · exact Or.inr (hsp2 c h)
  have hhex : hasHexMark (d :: (ds' ++ sp2)) = false :=
    hasHexMark_of_digits d (ds' ++ sp2) hd hmix
  have hsp2drop : sp2.dropWhile lisspace = [] := dropWhile_of_allspace sp2 hsp2
  have hloopBase := str2intDecLoop_spec sp2
  rcases hsgn with rfl | rfl | rfl
  · -- no sign
    have e1 : sp1 ++ [] ++ (d :: ds') ++ sp2 = sp1 ++ (d :: (ds' ++ sp2)) := by simp
    rw [e1]
    have hdrop : (sp1 ++ (d :: (ds' ++ sp2))).dropWhile lisspace = d :: (ds' ++ sp2) := by
      rw [dropWhile_all lisspace sp1 _ hsp1,
        List.dropWhile_cons_of_neg (by simp [lisdigit_not_space d hd])]
    have hneg0 : isneg (d :: (ds' ++ sp2)) = (false, d :: (ds' ++ sp2)) := by
      simp only [isneg]
      rw [if_neg (by omega), if_neg (by omega)]
    have hval : decSignedValue [] (d :: ds') = (decValueFrom 0 (d :: ds') : Int) := by
      unfold decSignedValue
      rw [if_neg (by simp), one_mul]
    obtain ⟨hok, hfail⟩ :=
      hloopBase 0 hsfx (by omega) (d :: ds') 0 true hds (by omega)
    have hred : l_str2int (sp1 ++ (d :: (ds' ++ sp2))) =
        match str2intDecLoop (d :: (ds' ++ sp2)) 0 true 0 with
        | none => none
        | some (a, empty, rest) =>
          if empty = true ∨ rest.dropWhile lisspace ≠ [] then none
          else some (l_castU2S a) := by
      simp only [l_str2int, hdrop, hneg0, hhex, Bool.false_eq_true, if_false]
      try rfl
    constructor
    · intro hrange
      have hbound : decValueFrom 0 (d :: ds') ≤ 2 ^ 63 - 1 + 0 := by
        rw [hval] at hrange
        unfold isLuaInteger LUA_MININTEGER LUA_MAXINTEGER at hrange
        omega
      have hcons : (d :: ds') ++ sp2 = d :: (ds' ++ sp2) := by simp
      rw [hred, ← hcons, hok hbound]
      simp only [List.isEmpty_cons, Bool.false_eq_true, if_false, hsp2drop]
      simp only [ne_eq, not_true_eq_false, or_false, if_false]
      rw [hval, l_castU2S_small _ (by omega)]
    · intro hrange
      have hbound : 2 ^ 63 - 1 + 0 < decValueFrom 0 (d :: ds') := by
        rw [hval] at hrange
        unfold isLuaInteger LUA_MININTEGER LUA_MAXINTEGER at hrange
        push_neg at hrange
        have hnn : (0 : Int) ≤ (decValueFrom 0 (d :: ds') : Int) := by positivity
        omega
      have hcons : (d :: ds') ++ sp2 = d :: (ds' ++ sp2) := by simp
      have hnone : l_str2int (sp1 ++ (d :: (ds' ++ sp2))) = none := by
        rw [hred, ← hcons, hfail hbound]
      refine ⟨hnone, fun str2d q hq => ?_⟩
      unfold luaO_str2num
      rw [hnone, hq]
  · -- plus sign
    have e1 : sp1 ++ [Char.ofNat 43] ++ (d :: ds') ++ sp2 =
        sp1 ++ (Char.ofNat 43 :: (d :: (ds' ++ sp2))) := by simp
    rw [e1]
    have hdrop : (sp1 ++ (Char.ofNat 43 :: (d :: (ds' ++ sp2)))).dropWhile lisspace =
        Char.ofNat 43 :: (d :: (ds' ++ sp2)) := by
      rw [dropWhile_all lisspace sp1 _ hsp1,
        List.dropWhile_cons_of_neg (by decide)]
    have hneg0 : isneg (Char.ofNat 43 :: (d :: (ds' ++ sp2))) =
        (false, d :: (ds' ++ sp2)) := by
      simp only [isneg]
      rw [if_neg (by decide), if_pos (by decide)]
    have hval : decSignedValue [Char.ofNat 43] (d :: ds')
        = (decValueFrom 0 (d :: ds') : Int) := by
      unfold decSignedValue
      rw [if_neg (by decide), one_mul]
    obtain ⟨hok, hfail⟩ :=
      hloopBase 0 hsfx (by omega) (d :: ds') 0 true hds (by omega)
    have hred : l_str2int (sp1 ++ (Char.ofNat 43 :: (d :: (ds' ++ sp2)))) =
        match str2intDecLoop (d :: (ds' ++ sp2)) 0 true 0 with
        | none => none
        | some (a, empty, rest) =>
          if empty = true ∨ rest.dropWhile lisspace ≠ [] then none
          else some (l_castU2S a) := by
      simp only [l_str2int, hdrop, hneg0, hhex, Bool.false_eq_true, if_false]
      try rfl
    constructor
    · intro hrange
      have hbound : decValueFrom 0 (d :: ds') ≤ 2 ^ 63 - 1 + 0 := by
        rw [hval] at hrange
        unfold isLuaInteger LUA_MININTEGER LUA_MAXINTEGER at hrange
        omega
      have hcons : (d :: ds') ++ sp2 = d :: (ds' ++ sp2) := by simp
      rw [hred, ← hcons, hok hbound]
      simp only [List.isEmpty_cons, Bool.false_eq_true, if_false, hsp2drop]
      simp only [ne_eq, not_true_eq_false, or_false, if_false]
      rw [hval, l_castU2S_small _ (by omega)]
    · intro hrange
      have hbound : 2 ^ 63 - 1 + 0 < decValueFrom 0 (d :: ds') := by
        rw [hval] at hrange
        unfold isLuaInteger LUA_MININTEGER LUA_MAXINTEGER at hrange
        push_neg at hrange
        have hnn : (0 : Int) ≤ (decValueFrom 0 (d :: ds') : Int) := by positivity
        omega
      have hcons : (d :: ds') ++ sp2 = d :: (ds' ++ sp2) := by simp
      have hnone : l_str2int (sp1 ++ (Char.ofNat 43 :: (d :: (ds' ++ sp2)))) = none := by
        rw [hred, ← hcons, hfail hbound]
      refine ⟨hnone, fun str2d q hq => ?_⟩
      unfold luaO_str2num
      rw [hnone, hq]
  · -- minus sign
    have e1 : sp1 ++ [Char.ofNat 45] ++ (d :: ds') ++ sp2 =
        sp1 ++ (Char.ofNat 45 :: (d :: (ds' ++ sp2))) := by simp
    rw [e1]
    have hdrop : (sp1 ++ (Char.ofNat 45 :: (d :: (ds' ++ sp2)))).dropWhile lisspace =
        Char.ofNat 45 :: (d :: (ds' ++ sp2)) := by
      rw [dropWhile_all lisspace sp1 _ hsp1,
        List.dropWhile_cons_of_neg (by decide)]
    have hneg0 : isneg (Char.ofNat 45 :: (d :: (ds' ++ sp2))) =
        (true, d :: (ds' ++ sp2)) := by
      simp only [isneg]
      rw [if_pos (by decide)]
    have hval : decSignedValue [Char.ofNat 45] (d :: ds')
        = -(decValueFrom 0 (d :: ds') : Int) := by
      unfold decSignedValue
      rw [if_pos rfl]
      ring
    obtain ⟨hok, hfail⟩ :=
      hloopBase 1 hsfx (by omega) (d :: ds') 0 true hds (by omega)
    have hred : l_str2int (sp1 ++ (Char.ofNat 45 :: (d :: (ds' ++ sp2)))) =
        match str2intDecLoop (d :: (ds' ++ sp2)) 0 true 1 with
        | none => none
        | some (a, empty, rest) =>
          if empty = true ∨ rest.dropWhile lisspace ≠ [] then none
          else some (l_castU2S ((2 ^ 64 - a) % 2 ^ 64)) := by
      simp only [l_str2int, hdrop, hneg0, hhex, Bool.false_eq_true, if_false]
      try rfl
    constructor
    · intro hrange
      have hbound : decValueFrom 0 (d :: ds') ≤ 2 ^ 63 - 1 + 1 := by
        rw [hval] at hrange
        unfold isLuaInteger LUA_MININTEGER LUA_MAXINTEGER at hrange
        omega
      have hcons : (d :: ds') ++ sp2 = d :: (ds' ++ sp2) := by simp
      rw [hred, ← hcons, hok hbound]
      simp only [List.isEmpty_cons, Bool.false_eq_true, if_false, hsp2drop]
      simp only [ne_eq, not_true_eq_false, or_false, if_false]
      rw [hval, l_castU2S_negOf _ (by omega)]
    · intro hrange
      have hbound : 2 ^ 63 - 1 + 1 < decValueFrom 0 (d :: ds') := by
        rw [hval] at hrange
        unfold isLuaInteger LUA_MININTEGER LUA_MAXINTEGER at hrange
        push_neg at hrange
        have hnn : (0 : Int) ≤ (decValueFrom 0 (d :: ds') : Int) := by positivity
        omega
      have hcons : (d :: ds') ++ sp2 = d :: (ds' ++ sp2) := by simp
      have hnone : l_str2int (sp1 ++ (Char.ofNat 45 :: (d :: (ds' ++ sp2)))) = none := by
        rw [hred, ← hcons, hfail hbound]
      refine ⟨hnone, fun str2d q hq => ?_⟩
      unfold luaO_str2num
      rw [hnone, hq]


/-- Witness for C8: the decimal numeral -9223372036854775808 (exactly
`LUA_MININTEGER`) converts to its exact value. -/
theorem l_str2int_decimal_range_witness :
    l_str2int ([] ++ [Char.ofNat 45] ++ "9223372036854775808".toList ++ []) =
      some (decSignedValue [Char.ofNat 45] "9223372036854775808".toList) :=
  (l_str2int_decimal_range [] [Char.ofNat 45] "9223372036854775808".toList []
    (by decide) (by decide) (by decide) (by decide)
    (Or.inr (Or.inr rfl))).1 (by decide)

/-! ## C10: UTF-8 escape encoding -/

theorem utf8escLoop_step (buff : List Nat) (x mfb n : Nat) :
    utf8escLoop buff x mfb n =
      if mfb / 2 < x / 64 then
        utf8escLoop (buff.set (UTF8BUFFSZ - n) (0x80 ||| x % 64)) (x / 64) (mfb / 2) (n + 1)
      else (buff.set (UTF8BUFFSZ - n) (0x80 ||| x % 64), x / 64, mfb / 2, n + 1) := by
  conv_lhs => rw [utf8escLoop.eq_def]

theorem utf8_or128 : ∀ m < 64, 128 ||| m = 128 + m := by decide

theorem utf8_fb31 : ∀ y < 32, utf8FirstByte 31 y = 192 + y := by decide

theorem utf8_fb15 : ∀ y < 16, utf8FirstByte 15 y = 224 + y := by decide

theorem utf8escLoop_class2 (buff : List Nat) (x : Nat) (h2 : x < 0x800) :
    utf8escLoop buff x 63 1 = (buff.set 7 (0x80 ||| x % 64), x / 64, 31, 2) := by
  rw [utf8escLoop_step, if_neg (by omega)]
  norm_num [UTF8BUFFSZ]

theorem utf8escLoop_class3 (buff : List Nat) (x : Nat) (h1 : 0x800 ≤ x) (h2 : x < 0x10000) :
    utf8escLoop buff x 63 1 =
      ((buff.set 7 (0x80 ||| x % 64)).set 6 (0x80 ||| x / 64 % 64), x / 4096, 15, 3) := by
  rw [utf8escLoop_step, if_pos (by omega)]
  rw [utf8escLoop_step, if_neg (by omega)]
  norm_num [UTF8BUFFSZ, Nat.div_div_eq_div_mul]


theorem utf8_fb7 : ∀ y < 8, utf8FirstByte 7 y = 240 + y := by decide

theorem utf8_fb3 : ∀ y < 4, utf8FirstByte 3 y = 248 + y := by decide

theorem utf8_fb1 : ∀ y < 2, utf8FirstByte 1 y = 252 + y := by decide

theorem utf8escLoop_class4 (buff : List Nat) (x : Nat)
    (h1 : 0x10000 ≤ x) (h2 : x < 0x200000) :
    utf8escLoop buff x 63 1 =
      (((buff.set 7 (0x80 ||| x % 64)).set 6 (0x80 ||| x / 64 % 64)).set 5
          (0x80 ||| x / 4096 % 64),
        x / 262144, 7, 4) := by
  rw [utf8escLoop_step, if_pos (by omega)]
  rw [utf8escLoop_step, if_pos (by omega)]
  rw [utf8escLoop_step, if_neg (by omega)]
  norm_num [UTF8BUFFSZ, Nat.div_div_eq_div_mul]

theorem utf8escLoop_class5 (buff : List Nat) (x : Nat)
    (h1 : 0x200000 ≤ x) (h2 : x < 0x4000000) :
    utf8escLoop buff x 63 1 =
      ((((buff.set 7 (0x80 ||| x % 64)).set 6 (0x80 ||| x / 64 % 64)).set 5
          (0x80 ||| x / 4096 % 64)).set 4 (0x80 ||| x / 262144 % 64),
        x / 16777216, 3, 5) := by
  rw [utf8escLoop_step, if_pos (by omega)]
  rw [utf8escLoop_step, if_pos (by omega)]
  rw [utf8escLoop_step, if_pos (by omega)]
  rw [utf8escLoop_step, if_neg (by omega)]
  norm_num [UTF8BUFFSZ, Nat.div_div_eq_div_mul]

theorem utf8escLoop_class6 (buff : List Nat) (x : Nat)
    (h1 : 0x4000000 ≤ x) (h2 : x ≤ 0x7FFFFFFF) :
    utf8escLoop buff x 63 1 =
      (((((buff.set 7 (0x80 ||| x % 64)).set 6 (0x80 ||| x / 64 % 64)).set 5
          (0x80 ||| x / 4096 % 64)).set 4 (0x80 ||| x / 262144 % 64)).set 3
          (0x80 ||| x / 16777216 % 64),
        x / 1073741824, 1, 6) := by
  rw [utf8escLoop_step, if_pos (by omega)]
  rw [utf8escLoop_step, if_pos (by omega)]
  rw [utf8escLoop_step, if_pos (by omega)]
  rw [utf8escLoop_step, if_pos (by omega)]
  rw [utf8escLoop_step, if_neg (by omega)]
  norm_num [UTF8BUFFSZ, Nat.div_div_eq_div_mul]

theorem utf8decode_one (x : Nat) (h1 : x < 0x80) :
    utf8decode [x] = some x := by
  simp only [utf8decode, List.length_nil, List.all_nil]
  rw [if_pos h1]
  norm_num

theorem utf8decode_two (x : Nat) (h1 : 0x80 ≤ x) (h2 : x < 0x800) :
    utf8decode [192 + x / 64, 128 + x % 64] = some x := by
  simp only [utf8decode, List.length_cons, List.length_nil, List.all_cons, List.all_nil]
  rw [if_neg (by omega), if_pos (by omega)]
  norm_num
  omega

theorem utf8decode_three (x : Nat) (h1 : 0x800 ≤ x) (h2 : x < 0x10000) :
    utf8decode [224 + x / 4096, 128 + x / 64 % 64, 128 + x % 64] = some x := by
  simp only [utf8decode, List.length_cons, List.length_nil, List.all_cons, List.all_nil]
  rw [if_neg (by omega), if_neg (by omega), if_pos (by omega)]
  norm_num
  omega

theorem utf8decode_four (x : Nat) (h1 : 0x10000 ≤ x) (h2 : x < 0x200000) :
    utf8decode [240 + x / 262144, 128 + x / 4096 % 64, 128 + x / 64 % 64,
      128 + x % 64] = some x := by
  simp only [utf8decode, List.length_cons, List.length_nil, List.all_cons, List.all_nil]
  rw [if_neg (by omega), if_neg (by omega), if_neg (by omega), if_pos (by omega)]
  norm_num
  omega

theorem utf8decode_five (x : Nat) (h1 : 0x200000 ≤ x) (h2 : x < 0x4000000) :
    utf8decode [248 + x / 16777216, 128 + x / 262144 % 64, 128 + x / 4096 % 64,
      128 + x / 64 % 64, 128 + x % 64] = some x := by
  simp only [utf8decode, List.length_cons, List.length_nil, List.all_cons, List.all_nil]
  rw [if_neg (by omega), if_neg (by omega), if_neg (by omega), if_neg (by omega),
    if_pos (by omega)]
  norm_num
  omega

theorem utf8decode_six (x : Nat) (h1 : 0x4000000 ≤ x) (h2 : x ≤ 0x7FFFFFFF) :
    utf8decode [252 + x / 1073741824, 128 + x / 16777216 % 64, 128 + x / 262144 % 64,
      128 + x / 4096 % 64, 128 + x / 64 % 64, 128 + x % 64] = some x := by
  simp only [utf8decode, List.length_cons, List.length_nil, List.all_cons, List.all_nil]
  rw [if_neg (by omega), if_neg (by omega), if_neg (by omega), if_neg (by omega),
    if_neg (by omega), if_pos (by omega)]
  norm_num
  omega

theorem list_length_eight (l : List Nat) (h : l.length = 8) :
    ∃ a0 a1 a2 a3 a4 a5 a6 a7 : Nat, l = [a0, a1, a2, a3, a4, a5, a6, a7] := by
  cases l with
  | nil => exact absurd h (by simp)
  | cons a0 l =>
  cases l with
  | nil => exact absurd h (by simp)
  | cons a1 l =>
  cases l with
  | nil => exact absurd h (by simp)
  | cons a2 l =>
  cases l with
  | nil => exact absurd h (by simp)
  | cons a3 l =>
  cases l with
  | nil => exact absurd h (by simp)
  | cons a4 l =>
  cases l with
  | nil => exact absurd h (by simp)
  | cons a5 l =>
  cases l with
  | nil => exact absurd h (by simp)
  | cons a6 l =>
  cases l with
  | nil => exact absurd h (by simp)
  | cons a7 l =>
  cases l with
  | nil => exact ⟨a0, a1, a2, a3, a4, a5, a6, a7, rfl⟩
  | cons a8 l =>
    exact absurd h (by simp only [List.length_cons]; omega)

/-- C10: for every code point up to 0x7FFFFFFF, `luaO_utf8esc` returns a
byte count `n` with `1 ≤ n ≤ UTF8BUFFSZ`, writes exactly the last `n` bytes
of the 8-byte buffer (all lower positions untouched), emits the single byte
`x` itself when `x < 0x80`, and the emitted bytes are the UTF-8 encoding of
`x`: decoding them yields `x` back. -/
theorem luaO_utf8esc_spec (x : Nat) (hx : x ≤ 0x7FFFFFFF) (buff : List Nat)
    (hb : buff.length = 8) :
    1 ≤ (luaO_utf8esc buff x).1 ∧ (luaO_utf8esc buff x).1 ≤ UTF8BUFFSZ ∧
    (x < 0x80 → (luaO_utf8esc buff x).1 = 1 ∧
      (luaO_utf8esc buff x).2.getD 7 0 = x) ∧
    (∀ i, i < 8 - (luaO_utf8esc buff x).1 →
      (luaO_utf8esc buff x).2.getD i 0 = buff.getD i 0) ∧
    utf8decode ((luaO_utf8esc buff x).2.drop (8 - (luaO_utf8esc buff x).1)) = some x := by
  obtain ⟨a0, a1, a2, a3, a4, a5, a6, a7, rfl⟩ := list_length_eight buff hb
  by_cases h1 : x < 0x80
  · have he : luaO_utf8esc [a0, a1, a2, a3, a4, a5, a6, a7] x =
        (1, [a0, a1, a2, a3, a4, a5, a6, x]) := by
      unfold luaO_utf8esc
      rw [if_pos h1]
      rfl
    rw [he]
    refine ⟨by norm_num, by norm_num [UTF8BUFFSZ], fun _ => ⟨rfl, rfl⟩, ?_, ?_⟩
    · intro i hi
      norm_num at hi
      interval_cases i <;> rfl
    · exact utf8decode_one x h1
  by_cases h2 : x < 0x800
  · have hm : x % 64 < 64 := Nat.mod_lt _ (by norm_num)
    have hq : x / 64 < 32 := by omega
    have he : luaO_utf8esc [a0, a1, a2, a3, a4, a5, a6, a7] x =
        (2, [a0, a1, a2, a3, a4, a5, 192 + x / 64, 128 + x % 64]) := by
      simp only [luaO_utf8esc]
      rw [if_neg (by omega), utf8escLoop_class2 _ _ h2]
      simp only []
      rw [utf8_or128 _ hm, utf8_fb31 _ hq]
      rfl
    rw [he]
    refine ⟨by norm_num, by norm_num [UTF8BUFFSZ], fun h => absurd h (by omega), ?_, ?_⟩
    · intro i hi
      norm_num at hi
      interval_cases i <;> rfl
    · exact utf8decode_two x (by omega) h2
  by_cases h3 : x < 0x10000
  · have hm : x % 64 < 64 := Nat.mod_lt _ (by norm_num)
    have hm2 : x / 64 % 64 < 64 := Nat.mod_lt _ (by norm_num)
    have hq : x / 4096 < 16 := by omega
    have he : luaO_utf8esc [a0, a1, a2, a3, a4, a5, a6, a7] x =
        (3, [a0, a1, a2, a3, a4, 224 + x / 4096, 128 + x / 64 % 64, 128 + x % 64]) := by
      simp only [luaO_utf8esc]
      rw [if_neg (by omega), utf8escLoop_class3 _ _ (by omega) h3]
      simp only []
      rw [utf8_or128 _ hm, utf8_or128 _ hm2, utf8_fb15 _ hq]
      rfl
    rw [he]
    refine ⟨by norm_num, by norm_num [UTF8BUFFSZ], fun h => absurd h (by omega), ?_, ?_⟩
    · intro i hi
      norm_num at hi
      interval_cases i <;> rfl
    · exact utf8decode_three x (by omega) h3
  by_cases h4 : x < 0x200000
  · have hm : x % 64 < 64 := Nat.mod_lt _ (by norm_num)
    have hm2 : x / 64 % 64 < 64 := Nat.mod_lt _ (by norm_num)
    have hm3 : x / 4096 % 64 < 64 := Nat.mod_lt _ (by norm_num)
    have hq : x / 262144 < 8 := by omega
    have he : luaO_utf8esc [a0, a1, a2, a3, a4, a5, a6, a7] x =
        (4, [a0, a1, a2, a3, 240 + x / 262144, 128 + x / 4096 % 64,
          128 + x / 64 % 64, 128 + x % 64]) := by
      simp only [luaO_utf8esc]
      rw [if_neg (by omega), utf8escLoop_class4 _ _ (by omega) h4]
      simp only []
      rw [utf8_or128 _ hm, utf8_or128 _ hm2, utf8_or128 _ hm3, utf8_fb7 _ hq]
      rfl
    rw [he]
    refine ⟨by norm_num, by norm_num [UTF8BUFFSZ], fun h => absurd h (by omega), ?_, ?_⟩
    · intro i hi
      norm_num at hi
      interval_cases i <;> rfl
    · exact utf8decode_four x (by omega) h4
  by_cases h5 : x < 0x4000000
  · have hm : x % 64 < 64 := Nat.mod_lt _ (by norm_num)
    have hm2 : x / 64 % 64 < 64 := Nat.mod_lt _ (by norm_num)
    have hm3 : x / 4096 % 64 < 64 := Nat.mod_lt _ (by norm_num)
    have hm4 : x / 262144 % 64 < 64 := Nat.mod_lt _ (by norm_num)
    have hq : x / 16777216 < 4 := by omega
    have he : luaO_utf8esc [a0, a1, a2, a3, a4, a5, a6, a7] x =
        (5, [a0, a1, a2, 248 + x / 16777216, 128 + x / 262144 % 64,
          128 + x / 4096 % 64, 128 + x / 64 % 64, 128 + x % 64]) := by
      simp only [luaO_utf8esc]
      rw [if_neg (by omega), utf8escLoop_class5 _ _ (by omega) h5]
      simp only []
      rw [utf8_or128 _ hm, utf8_or128 _ hm2, utf8_or128 _ hm3, utf8_or128 _ hm4,
        utf8_fb3 _ hq]
      rfl
    rw [he]
    refine ⟨by norm_num, by norm_num [UTF8BUFFSZ], fun h => absurd h (by omega), ?_, ?_⟩
    · intro i hi
      norm_num at hi
      interval_cases i <;> rfl
    · exact utf8decode_five x (by omega) h5
  · have hm : x % 64 < 64 := Nat.mod_lt _ (by norm_num)
    have hm2 : x / 64 % 64 < 64 := Nat.mod_lt _ (by norm_num)
    have hm3 : x / 4096 % 64 < 64 := Nat.mod_lt _ (by norm_num)
    have hm4 : x / 262144 % 64 < 64 := Nat.mod_lt _ (by norm_num)
    have hm5 : x / 16777216 % 64 < 64 := Nat.mod_lt _ (by norm_num)
    have hq : x / 1073741824 < 2 := by omega
    have he : luaO_utf8esc [a0, a1, a2, a3, a4, a5, a6, a7] x =
        (6, [a0, a1, 252 + x / 1073741824, 128 + x / 16777216 % 64,
          128 + x / 262144 % 64, 128 + x / 4096 % 64, 128 + x / 64 % 64,
          128 + x % 64]) := by
      simp only [luaO_utf8esc]
      rw [if_neg (by omega), utf8escLoop_class6 _ _ (by omega) hx]
      simp only []
      rw [utf8_or128 _ hm, utf8_or128 _ hm2, utf8_or128 _ hm3, utf8_or128 _ hm4,
        utf8_or128 _ hm5, utf8_fb1 _ hq]
      rfl
    rw [he]
    refine ⟨by norm_num, by norm_num [UTF8BUFFSZ], fun h => absurd h (by omega), ?_, ?_⟩
    · intro i hi
      norm_num at hi
      interval_cases i <;> rfl
    · exact utf8decode_six x (by omega) hx

/-- Witness for C10 at the concrete code point 0x20AC (three bytes). -/
theorem luaO_utf8esc_spec_witness :
    utf8decode ((luaO_utf8esc (List.replicate 8 0) 8364).2.drop
      (8 - (luaO_utf8esc (List.replicate 8 0) 8364).1)) = some 8364 :=
  (luaO_utf8esc_spec 8364 (by norm_num) (List.replicate 8 0) (by decide)).2.2.2.2


/-! ## Basic sanity theorems for the integer model -/

theorem l_castS2U_lt (v : Int) : l_castS2U v < 2 ^ 64 := by
  unfold l_castS2U
  have h : (0 : Int) < 2 ^ 64 := by positivity
  have := Int.emod_lt_of_pos v h
  omega

theorem l_castS2U_emod (v : Int) : (l_castS2U v : Int) % 2 ^ 64 = v % 2 ^ 64 := by
  unfold l_castS2U
  have h : (0 : Int) < 2 ^ 64 := by positivity
  have h1 := Int.emod_nonneg v (by positivity : (2:Int) ^ 64 ≠ 0)
  have h2 := Int.emod_lt_of_pos v h
  rw [Int.toNat_of_nonneg h1]
  omega

theorem l_castU2S_emod (u : Nat) : l_castU2S u % 2 ^ 64 = (u : Int) % 2 ^ 64 := by
  unfold l_castU2S
  have hu : u % 2 ^ 64 < 2 ^ 64 := Nat.mod_lt _ (by positivity)
  have hcast : ((u % 2 ^ 64 : Nat) : Int) = (u : Int) % 2 ^ 64 := by
    push_cast; ring
  split <;> omega

theorem l_castU2S_range (u : Nat) : isLuaInteger (l_castU2S u) := by
  unfold l_castU2S isLuaInteger LUA_MININTEGER LUA_MAXINTEGER
  have hu : u % 2 ^ 64 < 2 ^ 64 := Nat.mod_lt _ (by positivity)
  split <;> omega

end LuaCore

namespace LuaCore

theorem l_castS2U_modeq (v : Int) : (l_castS2U v : Int) ≡ v [ZMOD 2 ^ 64] :=
  l_castS2U_emod v

theorem l_castU2S_modeq (u : Nat) : l_castU2S u ≡ (u : Int) [ZMOD 2 ^ 64] :=
  l_castU2S_emod u

theorem intop_umul64_modeq (v1 v2 : Int) :
    intop umul64 v1 v2 ≡ v1 * v2 [ZMOD 2 ^ 64] := by
  unfold intop
  have h1 : ((umul64 (l_castS2U v1) (l_castS2U v2) : Nat) : Int)
      ≡ (l_castS2U v1 : Int) * (l_castS2U v2 : Int) [ZMOD 2 ^ 64] := by
    unfold umul64
    have hc : ((l_castS2U v1 * l_castS2U v2 % 2 ^ 64 : Nat) : Int)
        = ((l_castS2U v1 : Int) * (l_castS2U v2 : Int)) % ((2 : Int) ^ 64) := by
      push_cast; ring
    unfold Int.ModEq
    rw [hc]
    exact Int.emod_emod_of_dvd _ dvd_rfl
  have h2 : (l_castS2U v1 : Int) * (l_castS2U v2 : Int) ≡ v1 * v2 [ZMOD 2 ^ 64] :=
    Int.ModEq.mul (l_castS2U_modeq v1) (l_castS2U_modeq v2)
  exact ((l_castU2S_modeq _).trans h1).trans h2

theorem intop_uadd64_modeq (v1 v2 : Int) :
    intop uadd64 v1 v2 ≡ v1 + v2 [ZMOD 2 ^ 64] := by
  unfold Int.ModEq intop uadd64 l_castS2U l_castU2S
  split <;> omega

theorem intop_usub64_modeq (v1 v2 : Int) :
    intop usub64 v1 v2 ≡ v1 - v2 [ZMOD 2 ^ 64] := by
  unfold Int.ModEq intop usub64 l_castS2U l_castU2S
  split <;> omega

theorem intarith_isLuaInteger_add (v1 v2 : Int) : isLuaInteger (intarith .add v1 v2) :=
  l_castU2S_range _

theorem intarith_isLuaInteger_sub (v1 v2 : Int) : isLuaInteger (intarith .sub v1 v2) :=
  l_castU2S_range _

theorem intarith_isLuaInteger_mul (v1 v2 : Int) : isLuaInteger (intarith .mul v1 v2) :=
  l_castU2S_range _

/-- C2: for all `lua_Integer` operands, `intarith` with `LUA_OPADD`,
`LUA_OPSUB`, `LUA_OPMUL`, `LUA_OPUNM` computes the mathematical result
modulo 2^64 with two's-complement wrap-around: the result is congruent to the
exact result mod 2^64 and lies in the `lua_Integer` range, which determines it
uniquely. The functions are total (defined for every pair of operands), so
overflow never raises an error and never yields any value but the wrapped one. -/
theorem intarith_addsubmul_unm_wrap64 (v1 v2 : Int)
    (_h1 : isLuaInteger v1) (_h2 : isLuaInteger v2) :
    (intarith .add v1 v2 ≡ v1 + v2 [ZMOD 2 ^ 64] ∧ isLuaInteger (intarith .add v1 v2)) ∧
    (intarith .sub v1 v2 ≡ v1 - v2 [ZMOD 2 ^ 64] ∧ isLuaInteger (intarith .sub v1 v2)) ∧
    (intarith .mul v1 v2 ≡ v1 * v2 [ZMOD 2 ^ 64] ∧ isLuaInteger (intarith .mul v1 v2)) ∧
    (intarith .unm v1 v2 ≡ -v1 [ZMOD 2 ^ 64] ∧ isLuaInteger (intarith .unm v1 v2)) := by
  refine ⟨⟨intop_uadd64_modeq v1 v2, l_castU2S_range _⟩,
    ⟨intop_usub64_modeq v1 v2, l_castU2S_range _⟩,
    ⟨intop_umul64_modeq v1 v2, l_castU2S_range _⟩,
    ⟨?_, l_castU2S_range _⟩⟩
  have h := intop_usub64_modeq 0 v1
  simpa using h

/-- Witness for C2 at a concrete overflowing input: 2^62 + 2^62 wraps. -/
theorem intarith_addsubmul_unm_wrap64_witness :
    intarith .add (2 ^ 62) (2 ^ 62) ≡ 2 ^ 62 + 2 ^ 62 [ZMOD 2 ^ 64] ∧
    isLuaInteger (intarith .add (2 ^ 62) (2 ^ 62)) :=
  (intarith_addsubmul_unm_wrap64 (2 ^ 62) (2 ^ 62)
    (by decide) (by decide)).1

end LuaCore
